import Mathlib

/-!
Verification of the awm-relayer core against its specification.

The development embeds, as executable Lean definitions, the parts of the
repository the claims refer to:

* the per-partition checkpoint manager (`Checkpoint` namespace) — its
  implementation file is not part of the excerpted sources (only its unit
  test table is), so `commitHeight` is modelled from the specification and
  checked against the test table from `relayer/checkpoint_test.go`;
* the orchestrator worker pipeline (`Pipeline` namespace) — likewise
  modelled from the specification;
* the relayer-key derivation, key-not-found error predicate and
  configuration key enumeration from `database/database.go`
  (`DatabaseModel` namespace), together with an executable Keccak-256
  (legacy padding, as used by the go-ethereum `crypto.Keccak256Hash` the
  source calls);
* the Warp message unpacking routine from `vms/evm/contract_message.go`
  (`ContractMessage` namespace), parameterised by the three external
  parsers it composes.
-/

namespace Checkpoint

/-- Modelled from the spec: the per-partition checkpoint state of the
`keyManager` (the implementation file is missing from the excerpted
sources; only `relayer/checkpoint_test.go` is present).  `committedHeight`
is the highest contiguously processed height; `pendingCommits` is the
min-priority-queue of completed heights above the gap, modelled as a
strictly sorted list with the minimum first.  Field names follow the test
file (`km.committedHeight`, `km.pendingCommits`). -/
structure KeyManager where
  committedHeight : Nat
  pendingCommits : List Nat
deriving DecidableEq

/-- Modelled from the spec: insertion into the pending min-queue.  The spec
requires duplicate pushes of the same height to be no-ops, so insertion
keeps the list strictly sorted and drops duplicates. -/
def insertPending (h : Nat) : List Nat → List Nat
  | [] => [h]
  | x :: xs =>
    if h < x then h :: x :: xs
    else if h = x then x :: xs
    else x :: insertPending h xs

/-- Modelled from the spec: repeatedly pop the minimum of the pending queue
while it equals `committedHeight + 1`, advancing `committedHeight` each
time (draining the contiguous run). -/
def drain : Nat → List Nat → Nat × List Nat
  | c, [] => (c, [])
  | c, x :: xs => if x = c + 1 then drain (c + 1) xs else (c, x :: xs)

/-- Modelled from the spec: `commitHeight h` signals that block height `h`
finished processing.  A stale height (`h ≤ committedHeight`) is a no-op;
otherwise `h` is pushed onto the pending queue and the contiguous run
starting at `committedHeight + 1` is drained.  This push-then-drain shape
reproduces every row of the `TestCommitHeight` table in
`relayer/checkpoint_test.go`, including the row where the gap height is
already pending (committed 10, pending {11}, commit 12 yields 12). -/
def commitHeight (km : KeyManager) (h : Nat) : KeyManager :=
  if h ≤ km.committedHeight then km
  else
    { committedHeight := (drain km.committedHeight (insertPending h km.pendingCommits)).1,
      pendingCommits := (drain km.committedHeight (insertPending h km.pendingCommits)).2 }

/-- Modelled from the spec: `commitHeight` together with the store writes it
issues before returning.  If `committedHeight` advanced, the new value is
persisted (one `put` of the new committed height) before the call returns;
otherwise nothing is written. -/
def commitHeightOps (km : KeyManager) (h : Nat) : KeyManager × List Nat :=
  let km2 := commitHeight km h
  (km2, if km.committedHeight < km2.committedHeight then [km2.committedHeight] else [])

/-- A sequence of `commitHeight` calls, applied in order. -/
def runCommits (km : KeyManager) (l : List Nat) : KeyManager :=
  l.foldl commitHeight km

/-- The invariant maintained while feeding completed heights to
`commitHeight`: the pending queue is sorted, bounded by `N`, strictly above
the committed height, fully drained (the gap height is not pending), and
every height in `(committedHeight, N]` is either pending or still in the
unprocessed suffix `l`. -/
def Inv (N : Nat) (km : KeyManager) (l : List Nat) : Prop :=
  km.pendingCommits.Sorted (· < ·) ∧
  (∀ a ∈ km.pendingCommits, km.committedHeight < a ∧ a ≤ N) ∧
  (km.committedHeight + 1) ∉ km.pendingCommits ∧
  km.committedHeight ≤ N ∧
  (∀ a ∈ l, a ≤ N) ∧
  (∀ m, km.committedHeight < m → m ≤ N → m ∈ km.pendingCommits ∨ m ∈ l)

end Checkpoint

namespace Pipeline

/-- External effects a worker can perform while processing one envelope, in
the order they are invoked. -/
inductive WorkerAction where
  | lookupHandler
  | resolveRoute
  | checkShouldSend
  | fetchAttestation
  | sendMessage
  | commitSignal (h : Nat)
deriving DecidableEq

/-- Outcomes of the externally-visible calls a `MessageHandler` makes for
one envelope, supplied as data: the result of `ShouldSendMessage` (per the
`MessageHandler` interface an error means the boolean must be ignored and
the task fails) and whether `SendMessage` succeeds. -/
structure HandlerBehavior where
  shouldSend : Except String Bool
  sendOk : Bool

/-- Modelled from the spec: the orchestrator worker pipeline for one
envelope (the orchestrator implementation is not in the excerpted sources;
only the `MessageHandler` interface is).  Steps, per spec 4.5: resolve the
handler via the registry (skip if unsupported), resolve the route (skip if
not configured), call `shouldSend` (skip if false or on error), fetch the
attestation (fail the task if unavailable), `send`, and on success commit
the envelope's height.  Returns the trace of actions performed. -/
def processEnvelope (handler : Option HandlerBehavior) (routeConfigured : Bool)
    (attestationAvailable : Bool) (height : Nat) : List WorkerAction :=
  match handler with
  | none => [.lookupHandler]
  | some hb =>
    .lookupHandler :: .resolveRoute ::
      (if !routeConfigured then []
       else .checkShouldSend ::
         (match hb.shouldSend with
          | .error _ => []
          | .ok false => []
          | .ok true =>
            .fetchAttestation ::
              (if !attestationAvailable then []
               else if hb.sendOk then [.sendMessage, .commitSignal height]
               else [.sendMessage])))

end Pipeline

namespace DatabaseModel

/-- Go error values as relevant to `database/database.go`: the three
sentinel errors created by `errors.New` at package level, other distinct
errors, and wrapping (as produced by `errors.Wrap`/`fmt.Errorf` with
`%w`), which `errors.Is` unwraps one level at a time. -/
inductive GoError where
  | ErrDataKeyNotFound
  | ErrRelayerKeyNotFound
  | ErrDatabaseMisconfiguration
  | otherError (msg : String)
  | wrapped (msg : String) (inner : GoError)
deriving DecidableEq

/-- `errors.Is`: the target sentinel matches the error itself or any error
reachable by unwrapping. -/
def errorsIs : GoError → GoError → Bool
  | e, target =>
    (decide (e = target)) ||
      (match e with
       | .wrapped _ inner => errorsIs inner target
       | _ => false)

/-- `IsKeyNotFoundError` from `database/database.go`: true if the error
indicates the requested key was not found. -/
def IsKeyNotFoundError (err : GoError) : Bool :=
  errorsIs err .ErrRelayerKeyNotFound || errorsIs err .ErrDataKeyNotFound

/-- The unwrap chain of an error: the error itself followed by everything
reachable by unwrapping. -/
def unwrapChain : GoError → List GoError
  | .ErrDataKeyNotFound => [.ErrDataKeyNotFound]
  | .ErrRelayerKeyNotFound => [.ErrRelayerKeyNotFound]
  | .ErrDatabaseMisconfiguration => [.ErrDatabaseMisconfiguration]
  | .otherError m => [.otherError m]
  | .wrapped m inner => .wrapped m inner :: unwrapChain inner

/-- 64-bit mask, `2^64 - 1`. -/
def mask64 : Nat := 2 ^ 64 - 1

/-- Left rotation of a 64-bit lane (values are naturals kept below
`2^64`). -/
def rotl64 (n r : Nat) : Nat :=
  ((n <<< (r % 64)) % 2 ^ 64) ||| (n >>> (64 - r % 64))

/-- Lane lookup in a Keccak state, absent positions reading as zero. -/
def get5 (l : List Nat) (i : Nat) : Nat := l.getD i 0

/-- The 25 Keccak rho rotation offsets, packed 6 bits per lane position
`x + 5 * y` (lane `i` at bits `6 * i`).  The packed value is proved equal,
lane by lane, to the table generated by the standard rho walk
(`rhoWalkOffsets`, theorem `rotPacked_unpacks_to_rhoWalk`). -/
def rotPacked : Nat :=
  332055894658593304689340699888832964872888384

/-- Rho rotation offset of lane `i`. -/
def rotOffset (i : Nat) : Nat := (rotPacked >>> (6 * i)) &&& 63

/-- The 24 Keccak-f[1600] round constants, packed 64 bits per round (round
`i` at bits `64 * i`).  The packed value is proved equal, round by round,
to the constants generated by the standard degree-8 LFSR
(`lfsrRoundConstants`, theorem `rcPacked_unpacks_to_lfsr`). -/
def rcPacked : Nat :=
  1205156213741117873793801653457646400354853640482554026796672552495827838021945262822995764188561208695010071872196002285438437705146918003581293676425490408196988879047816488244448921592893967204206317729165368965676751063758348017780551146722183778533850742993063670864647452380866254670587364680601677224368845814151339748009155989595816859296091634812222296788154661739837852576395622987138453341300190117166179406460848493097202890874282139253439655640563713

/-- Round constant of round `i`. -/
def roundConstant (i : Nat) : Nat := (rcPacked >>> (64 * i)) &&& mask64

/-- The rho offsets generated by the standard walk: starting from lane
`(1, 0)`, step `t` assigns offset `(t+1)(t+2)/2 mod 64` and moves to
`(y, 2x + 3y)`. -/
def rhoWalkOffsets : List Nat :=
  ((List.range 24).foldl
    (fun st t =>
      (st.2.1, (2 * st.1 + 3 * st.2.1) % 5,
        st.2.2.set (st.1 + 5 * st.2.1) (((t + 1) * (t + 2) / 2) % 64)))
    (1, 0, List.replicate 25 0)).2.2

/-- Bit `t` of the Keccak round-constant LFSR (the degree-8 LFSR with
polynomial `x^8 + x^6 + x^5 + x^4 + 1`, byte state starting at 1). -/
def rcLfsrBit (t : Nat) : Nat :=
  ((List.range (t % 255)).foldl
    (fun r _ =>
      if (r <<< 1) &&& 256 = 256 then (r <<< 1) ^^^ 0x171 else r <<< 1) 1) &&& 1

/-- The round constants generated from the LFSR: round `i` has LFSR bit
`j + 7i` at bit position `2^j - 1`, for `j < 7`. -/
def lfsrRoundConstants : List Nat :=
  (List.range 24).map fun i =>
    (List.range 7).foldl (fun acc j => acc ||| (rcLfsrBit (j + 7 * i) <<< (2 ^ j - 1))) 0

/-- Keccak theta step: xor each lane with the parity of two neighbouring
columns. -/
def theta (s : List Nat) : List Nat :=
  let c := (List.range 5).map fun x =>
    get5 s x ^^^ get5 s (x + 5) ^^^ get5 s (x + 10) ^^^ get5 s (x + 15) ^^^ get5 s (x + 20)
  let d := (List.range 5).map fun x =>
    get5 c ((x + 4) % 5) ^^^ rotl64 (get5 c ((x + 1) % 5)) 1
  (List.range 25).map fun i => get5 s i ^^^ get5 d (i % 5)

/-- Keccak rho and pi steps: rotate each lane by its offset and move it to
position `(y, 2x + 3y)`. -/
def rhoPi (s : List Nat) : List Nat :=
  (List.range 25).foldl
    (fun b i =>
      b.set ((i / 5) + 5 * ((2 * (i % 5) + 3 * (i / 5)) % 5))
        (rotl64 (get5 s i) (rotOffset i)))
    (List.replicate 25 0)

/-- Keccak chi step: `a ^^^ ((not b) &&& c)` along each row. -/
def chi (b : List Nat) : List Nat :=
  (List.range 25).map fun i =>
    get5 b i ^^^
      ((get5 b ((i % 5 + 1) % 5 + 5 * (i / 5)) ^^^ mask64) &&&
        get5 b ((i % 5 + 2) % 5 + 5 * (i / 5)))

/-- Keccak iota step: xor the round constant into lane (0, 0). -/
def iotaStep (rc : Nat) (s : List Nat) : List Nat :=
  s.set 0 (get5 s 0 ^^^ rc)

/-- The Keccak-f[1600] permutation: 24 rounds of theta, rho-pi, chi,
iota. -/
def keccakF (s : List Nat) : List Nat :=
  (List.range 24).foldl (fun st i => iotaStep (roundConstant i) (chi (rhoPi (theta st)))) s

/-- A little-endian byte list read as one natural number (first byte least
significant). -/
def laneFromBytes (bs : List Nat) : Nat :=
  bs.foldr (fun b acc => acc * 256 + b) 0

/-- Legacy Keccak padding (`0x01 … 0x80`, as used by go-ethereum's
`Keccak256`, not the SHA-3 `0x06` domain byte), for rate 136 bytes. -/
def padKeccak (msg : List Nat) : List Nat :=
  let padLen := 136 - msg.length % 136
  if padLen = 1 then msg ++ [0x81]
  else msg ++ 0x01 :: (List.replicate (padLen - 2) 0 ++ [0x80])

/-- Absorb one 136-byte block into the state and permute. -/
def absorbBlock (s : List Nat) (block : List Nat) : List Nat :=
  keccakF ((List.range 25).map fun i =>
    get5 s i ^^^ (if i < 17 then laneFromBytes ((block.drop (8 * i)).take 8) else 0))

/-- Split a padded message into its 136-byte blocks. -/
def keccakBlocks (msg : List Nat) : List (List Nat) :=
  (List.range (msg.length / 136)).map fun i => (msg.drop (136 * i)).take 136

/-- Keccak-256 of a byte list, as the 32-byte digest (the external
`crypto.Keccak256Hash` the source calls; checked against the standard test
vectors for the empty string and "abc"). -/
def Keccak256 (msg : List Nat) : List Nat :=
  let s := (keccakBlocks (padKeccak msg)).foldl absorbBlock (List.replicate 25 0)
  (List.range 32).map fun i => ((get5 s (i / 8)) >>> (8 * (i % 8))) % 256

/-- The bytes of an ASCII string (the string encodings the source hashes
are CB58 and 0x-hex, all ASCII, where each character is one byte). -/
def strBytes (s : String) : List Nat := s.data.map Char.toNat

/-- `CalculateRelayerKey` from `database/database.go`: join the string
forms of the four route fields with a dash and take the Keccak-256 hash.
The four arguments are the `String()` encodings (produced by the external
avalanchego/go-ethereum libraries) of the source blockchain ID, the
destination blockchain ID, the origin sender address and the destination
address. -/
def CalculateRelayerKey
    (sourceBlockchainID destinationBlockchainID : String)
    (originSenderAddress destinationAddress : String) : List Nat :=
  Keccak256 (strBytes (String.intercalate "-"
    [sourceBlockchainID, destinationBlockchainID, originSenderAddress, destinationAddress]))

/-- The tested corpus for key distinctness: a base 4-tuple of string
encodings together with four variants, each differing from the base in
exactly one field. -/
def testCorpus : List (List String) :=
  [["srcChainCB58ID1111111", "dstChainCB58ID2222222",
    "0xAAa1111111111111111111111111111111111111",
    "0xBbB2222222222222222222222222222222222222"],
   ["srcChainCB58ID1111112", "dstChainCB58ID2222222",
    "0xAAa1111111111111111111111111111111111111",
    "0xBbB2222222222222222222222222222222222222"],
   ["srcChainCB58ID1111111", "dstChainCB58ID2222223",
    "0xAAa1111111111111111111111111111111111111",
    "0xBbB2222222222222222222222222222222222222"],
   ["srcChainCB58ID1111111", "dstChainCB58ID2222222",
    "0xAAa1111111111111111111111111111111111112",
    "0xBbB2222222222222222222222222222222222222"],
   ["srcChainCB58ID1111111", "dstChainCB58ID2222222",
    "0xAAa1111111111111111111111111111111111111",
    "0xBbB2222222222222222222222222222222222223"]]

/-- A blockchain identifier (`ids.ID`, a 32-byte value) kept abstract as a
natural number. -/
abbrev BlockchainID := Nat

/-- An EVM account address (`common.Address`, a 20-byte value) kept
abstract as a natural number; the Go zero value `common.Address{}` is 0. -/
abbrev Address := Nat

/-- The zero address `common.Address{}`. -/
def zeroAddress : Address := 0

/-- `RelayerKey` from `database/database.go`: the identity of one
application relayer route. -/
structure RelayerKey where
  SourceBlockchainID : BlockchainID
  DestinationBlockchainID : BlockchainID
  OriginSenderAddress : Address
  DestinationAddress : Address
deriving DecidableEq

/-- The parts of `config.SourceBlockchain` that
`GetSourceConfigRelayerKeys` reads: the source blockchain ID
(`GetBlockchainID`) and the list of supported destination blockchain IDs
(`GetSupportedDestinations().List()`). -/
structure SourceBlockchain where
  blockchainID : BlockchainID
  supportedDestinations : List BlockchainID

/-- The part of `config.Config` that `GetConfigRelayerKeys` reads. -/
structure Config where
  sourceBlockchains : List SourceBlockchain

/-- `GetSourceConfigRelayerKeys` from `database/database.go`: one key per
supported destination, with both address fields left as the zero value
(the source has a TODO to populate them). -/
def GetSourceConfigRelayerKeys (cfg : SourceBlockchain) : List RelayerKey :=
  cfg.supportedDestinations.map fun dst =>
    { SourceBlockchainID := cfg.blockchainID,
      DestinationBlockchainID := dst,
      OriginSenderAddress := zeroAddress,
      DestinationAddress := zeroAddress }

/-- `GetConfigRelayerKeys` from `database/database.go`: the concatenation
of the per-source key lists. -/
def GetConfigRelayerKeys (cfg : Config) : List RelayerKey :=
  cfg.sourceBlockchains.flatMap GetSourceConfigRelayerKeys

end DatabaseModel

namespace ContractMessage

/-- A Go error value as produced inside `UnpackWarpMessage`; `errors.Join`
of the two parse errors is kept explicit. -/
inductive GoErr where
  | simple (msg : String)
  | joined (a b : GoErr)
deriving DecidableEq

/-- An unsigned Warp message as returned by the external parsers
(`warp.UnpackSendWarpEventDataToMessage` and
`avalancheWarp.ParseUnsignedMessage`); `UnpackWarpMessage` only reads its
`Payload` field. -/
structure UnsignedMessage where
  Payload : List Nat
deriving DecidableEq

/-- The result of the external `warpPayload.ParseAddressedCall`;
`UnpackWarpMessage` only reads its `Payload` field. -/
structure AddressedCall where
  Payload : List Nat
deriving DecidableEq

/-- `vmtypes.WarpMessageInfo` as used by `UnpackWarpMessage`: the raw
bytes, and the two fields the function assigns on success (pointers in Go,
modelled as `Option`, `none` meaning unassigned). -/
structure WarpMessageInfo where
  UnsignedMsgBytes : List Nat
  WarpUnsignedMessage : Option UnsignedMessage
  WarpPayload : Option (List Nat)
deriving DecidableEq

/-- The tail of `UnpackWarpMessage` after an unsigned message was parsed:
parse the payload as an addressed call; on failure return the error with
the struct untouched, on success assign both fields and return nil. -/
def unpackPayload (parseAddressedCall : List Nat → Except GoErr AddressedCall)
    (info : WarpMessageInfo) (u : UnsignedMessage) : WarpMessageInfo × Option GoErr :=
  match parseAddressedCall u.Payload with
  | .ok ac =>
    ({ info with WarpUnsignedMessage := some u, WarpPayload := some ac.Payload }, none)
  | .error e => (info, some e)

/-- `UnpackWarpMessage` from `vms/evm/contract_message.go`, parameterised
by the three external parsers it composes: first try to parse the bytes as
Warp-precompile log event data; on failure try them as a standalone
unsigned message, joining the two errors if that also fails; then parse
the resulting payload as an addressed call and assign the struct fields.
Returns the (possibly updated) struct together with the returned error
(`none` = Go `nil`). -/
def UnpackWarpMessage
    (unpackEvent parseStandalone : List Nat → Except GoErr UnsignedMessage)
    (parseAddressedCall : List Nat → Except GoErr AddressedCall)
    (info : WarpMessageInfo) : WarpMessageInfo × Option GoErr :=
  match unpackEvent info.UnsignedMsgBytes with
  | .ok u => unpackPayload parseAddressedCall info u
  | .error e1 =>
    match parseStandalone info.UnsignedMsgBytes with
    | .ok u => unpackPayload parseAddressedCall info u
    | .error e2 => (info, some (GoErr.joined e1 e2))

/-- The unsigned message `UnpackWarpMessage` ends up working with: the
event-data parse if it succeeds, otherwise the standalone parse if that
succeeds. -/
def parsedUnsignedMessage
    (unpackEvent parseStandalone : List Nat → Except GoErr UnsignedMessage)
    (bytes : List Nat) : Option UnsignedMessage :=
  match unpackEvent bytes with
  | .ok u => some u
  | .error _ =>
    match parseStandalone bytes with
    | .ok u => some u
    | .error _ => none

end ContractMessage

namespace Checkpoint

theorem mem_insertPending {a h : Nat} : ∀ {l : List Nat},
    a ∈ insertPending h l ↔ a = h ∨ a ∈ l := by
  intro l
  induction l with
  | nil => simp [insertPending]
  | cons x xs ih =>
    by_cases h1 : h < x
    · simp [insertPending, h1]
    · by_cases h2 : h = x
      · subst h2
        simp only [insertPending, h1, if_false, if_pos rfl]
        constructor
        · intro hm; exact Or.inr hm
        · rintro (rfl | hm)
          · exact List.mem_cons_self _ _
          · exact hm
      · simp only [insertPending, h1, if_false, h2, List.mem_cons, ih]
        tauto

theorem sorted_insertPending {h : Nat} : ∀ {l : List Nat},
    l.Sorted (· < ·) → (insertPending h l).Sorted (· < ·) := by
  intro l
  induction l with
  | nil => intro _; simp [insertPending]
  | cons x xs ih =>
    intro hs
    rw [List.sorted_cons] at hs
    obtain ⟨hx, hxs⟩ := hs
    by_cases h1 : h < x
    · simp only [insertPending, h1, if_true]
      rw [List.sorted_cons]
      refine ⟨?_, ?_⟩
      · intro b hb
        rcases List.mem_cons.mp hb with rfl | hb
        · exact h1
        · exact h1.trans (hx b hb)
      · rw [List.sorted_cons]; exact ⟨hx, hxs⟩
    · by_cases h2 : h = x
      · subst h2
        simp only [insertPending, h1, if_false, eq_self_iff_true, if_true]
        rw [List.sorted_cons]; exact ⟨hx, hxs⟩
      · simp only [insertPending, h1, if_false, h2]
        rw [List.sorted_cons]
        refine ⟨?_, ih hxs⟩
        intro b hb
        rcases mem_insertPending.mp hb with rfl | hb
        · omega
        · exact hx b hb

theorem drain_le : ∀ (l : List Nat) (c : Nat), c ≤ (drain c l).1 := by
  intro l
  induction l with
  | nil => intro c; simp [drain]
  | cons x xs ih =>
    intro c
    by_cases hx : x = c + 1
    · simp only [drain, hx, if_true]
      exact Nat.le_trans (Nat.le_succ c) (ih (c + 1))
    · simp [drain, hx]

theorem drain_mem {a : Nat} : ∀ {l : List Nat} {c : Nat},
    a ∈ (drain c l).2 → a ∈ l := by
  intro l
  induction l with
  | nil => intro c hmem; simp [drain] at hmem
  | cons x xs ih =>
    intro c hmem
    by_cases hx : x = c + 1
    · simp only [drain, hx, if_true] at hmem
      exact List.mem_cons_of_mem _ (ih hmem)
    · simp only [drain, hx, if_false] at hmem
      exact hmem

theorem drain_fst_mem : ∀ (l : List Nat) (c : Nat),
    (drain c l).1 = c ∨ (drain c l).1 ∈ l := by
  intro l
  induction l with
  | nil => intro c; simp [drain]
  | cons x xs ih =>
    intro c
    by_cases hx : x = c + 1
    · simp only [drain, hx, if_true]
      rcases ih (c + 1) with h | h
      · right; rw [h]; exact List.mem_cons_self _ _
      · right; exact List.mem_cons_of_mem _ h
    · simp [drain, hx]

theorem drain_sorted : ∀ {l : List Nat} {c : Nat},
    l.Sorted (· < ·) → (drain c l).2.Sorted (· < ·) := by
  intro l
  induction l with
  | nil => intro c _; simp [drain]
  | cons x xs ih =>
    intro c hs
    by_cases hx : x = c + 1
    · simp only [drain, hx, if_true]
      exact ih (List.sorted_cons.mp hs).2
    · simpa [drain, hx] using hs

theorem drain_gt_all : ∀ {l : List Nat} {c : Nat},
    l.Sorted (· < ·) → (∀ a ∈ l, c < a) →
    ∀ a ∈ (drain c l).2, (drain c l).1 < a := by
  intro l
  induction l with
  | nil => intro c _ _ a ha; simp [drain] at ha
  | cons x xs ih =>
    intro c hs hgt a ha
    rw [List.sorted_cons] at hs
    by_cases hx : x = c + 1
    · simp only [drain, hx, if_true] at ha ⊢
      refine ih hs.2 ?_ a ha
      intro b hb
      have := hs.1 b hb
      omega
    · simp only [drain, hx, if_false] at ha ⊢
      exact hgt a ha

theorem drain_not_mem : ∀ {l : List Nat} {c : Nat},
    l.Sorted (· < ·) → (∀ a ∈ l, c < a) →
    ((drain c l).1 + 1) ∉ (drain c l).2 := by
  intro l
  induction l with
  | nil => intro c _ _; simp [drain]
  | cons x xs ih =>
    intro c hs hgt
    rw [List.sorted_cons] at hs
    by_cases hx : x = c + 1
    · simp only [drain, hx, if_true]
      refine ih hs.2 ?_
      intro b hb
      have := hs.1 b hb
      omega
    · simp only [drain, hx, if_false]
      intro hmem
      rcases List.mem_cons.mp hmem with h | h
      · exact hx h.symm
      · have hxa := hs.1 _ h
        have hcx := hgt x (List.mem_cons_self _ _)
        omega

theorem drain_cover {a : Nat} : ∀ {l : List Nat} {c : Nat}, a ∈ l →
    a ≤ (drain c l).1 ∨ a ∈ (drain c l).2 := by
  intro l
  induction l with
  | nil => intro c ha; simp at ha
  | cons x xs ih =>
    intro c ha
    by_cases hx : x = c + 1
    · simp only [drain, hx, if_true]
      rcases List.mem_cons.mp ha with rfl | ha
      · left; rw [hx]; exact drain_le xs (c + 1)
      · exact ih ha
    · simp only [drain, hx, if_false]
      right; exact ha

theorem commitHeight_le (km : KeyManager) (h : Nat) :
    km.committedHeight ≤ (commitHeight km h).committedHeight := by
  by_cases hle : h ≤ km.committedHeight
  · simp [commitHeight, hle]
  · simp only [commitHeight, hle, if_false]
    exact drain_le _ _

theorem inv_step {N : Nat} {km : KeyManager} {h : Nat} {t : List Nat}
    (hinv : Inv N km (h :: t)) : Inv N (commitHeight km h) t := by
  obtain ⟨hs, hb, hnm, hle, hlb, hcov⟩ := hinv
  by_cases hstale : h ≤ km.committedHeight
  · rw [commitHeight, if_pos hstale]
    refine ⟨hs, hb, hnm, hle, fun a ha => hlb a (List.mem_cons_of_mem _ ha), ?_⟩
    intro m hm1 hm2
    rcases hcov m hm1 hm2 with hp | hl
    · exact Or.inl hp
    · rcases List.mem_cons.mp hl with rfl | hl
      · omega
      · exact Or.inr hl
  · rw [commitHeight, if_neg hstale]
    simp only [Inv]
    have hch : km.committedHeight < h := by omega
    have hhN : h ≤ N := hlb h (List.mem_cons_self _ _)
    set p2 := insertPending h km.pendingCommits with hp2
    have hp2s : p2.Sorted (· < ·) := sorted_insertPending hs
    have hp2b : ∀ a ∈ p2, km.committedHeight < a ∧ a ≤ N := by
      intro a ha
      rcases mem_insertPending.mp ha with rfl | ha
      · exact ⟨hch, hhN⟩
      · exact hb a ha
    have hp2gt : ∀ a ∈ p2, km.committedHeight < a := fun a ha => (hp2b a ha).1
    have hcle : km.committedHeight ≤ (drain km.committedHeight p2).1 := drain_le _ _
    refine ⟨drain_sorted hp2s, ?_, drain_not_mem hp2s hp2gt, ?_, ?_, ?_⟩
    · intro a ha
      exact ⟨drain_gt_all hp2s hp2gt a ha, (hp2b a (drain_mem ha)).2⟩
    · rcases drain_fst_mem p2 km.committedHeight with heq | hmem
      · simpa [heq] using hle
      · exact (hp2b _ hmem).2
    · exact fun a ha => hlb a (List.mem_cons_of_mem _ ha)
    · intro m hm1 hm2
      have hm0 : km.committedHeight < m := by omega
      have hmem2 : m ∈ p2 → m ∈ (drain km.committedHeight p2).2 := by
        intro hm
        rcases @drain_cover m p2 km.committedHeight hm with hle2 | hin
        · omega
        · exact hin
      rcases hcov m hm0 hm2 with hp | hl
      · exact Or.inl (hmem2 (mem_insertPending.mpr (Or.inr hp)))
      · rcases List.mem_cons.mp hl with rfl | hl
        · exact Or.inl (hmem2 (mem_insertPending.mpr (Or.inl rfl)))
        · exact Or.inr hl

theorem runCommits_eq_of_inv {N : Nat} : ∀ {l : List Nat} {km : KeyManager},
    Inv N km l → (runCommits km l).committedHeight = N := by
  intro l
  induction l with
  | nil =>
    intro km hinv
    obtain ⟨-, -, hnm, hle, -, hcov⟩ := hinv
    rw [runCommits, List.foldl_nil]
    by_contra hne
    have hlt : km.committedHeight < N := lt_of_le_of_ne hle hne
    rcases hcov (km.committedHeight + 1) (Nat.lt_succ_self _) (by omega) with hp | hl
    · exact hnm hp
    · simp at hl
  | cons h t ih =>
    intro km hinv
    rw [runCommits, List.foldl_cons]
    exact ih (inv_step hinv)

/-- C1: whenever a call to `commitHeight` advances `committedHeight`, the
new committed value is persisted to the backing store (exactly one `put` of
the new value) before the call returns — synchronous on every advance,
never skipped or deferred. -/
theorem claim_persist_on_advance (km : KeyManager) (h : Nat)
    (hadv : km.committedHeight < (commitHeightOps km h).1.committedHeight) :
    (commitHeightOps km h).2 = [(commitHeightOps km h).1.committedHeight] := by
  simp only [commitHeightOps] at hadv ⊢
  rw [if_pos hadv]

/-- Witness for C1 at committed height 10 and commit of height 11. -/
theorem claim_persist_on_advance_witness :
    ({ committedHeight := 10, pendingCommits := [] } : KeyManager).committedHeight <
      (commitHeightOps { committedHeight := 10, pendingCommits := [] } 11).1.committedHeight ∧
    (commitHeightOps { committedHeight := 10, pendingCommits := [] } 11).2 =
      [(commitHeightOps { committedHeight := 10, pendingCommits := [] } 11).1.committedHeight] :=
  ⟨by decide, claim_persist_on_advance { committedHeight := 10, pendingCommits := [] } 11 (by decide)⟩

/-- C2: with `committedHeight = 10` and pending exactly `{11}`, committing
height 12 drains 11 first and then 12, leaving `committedHeight = 12` with
nothing pending, even though `12 > committedHeight + 1` at call time. -/
theorem claim_gap_pending_drains :
    (commitHeight { committedHeight := 10, pendingCommits := [11] } 12).committedHeight = 12 ∧
    (commitHeight { committedHeight := 10, pendingCommits := [11] } 12).pendingCommits = [] := by
  decide

/-- C3: for every starting committed height `C`, every `N > C`, and every
permutation of the contiguous range `[C+1, N]` fed to `commitHeight` one
call at a time, the final committed height is `N` — completion order does
not affect the final committed height. -/
theorem claim_perm_reaches_top (C N : Nat) (l : List Nat) (hCN : C < N)
    (hperm : l.Perm (List.range' (C + 1) (N - C))) :
    (runCommits { committedHeight := C, pendingCommits := [] } l).committedHeight = N := by
  apply runCommits_eq_of_inv
  simp only [Inv]
  refine ⟨by simp, by simp, by simp, Nat.le_of_lt hCN, ?_, ?_⟩
  · intro a ha
    have hmem := hperm.mem_iff.mp ha
    rw [List.mem_range'_1] at hmem
    omega
  · intro m hm1 hm2
    right
    rw [hperm.mem_iff, List.mem_range'_1]
    omega

/-- Witness for C3: committed height 10, range `[11, 13]` in the completion
order 12, 13, 11. -/
theorem claim_perm_reaches_top_witness :
    (10 < 13) ∧ ([12, 13, 11].Perm (List.range' (10 + 1) (13 - 10))) ∧
    (runCommits { committedHeight := 10, pendingCommits := [] } [12, 13, 11]).committedHeight = 13 :=
  ⟨by decide, by decide, claim_perm_reaches_top 10 13 [12, 13, 11] (by decide) (by decide)⟩

/-- C4: `committedHeight` is monotonically non-decreasing along every
sequence of `commitHeight` calls — after each call it is at least its value
before that call. -/
theorem claim_monotone (km : KeyManager) (l : List Nat) (n : Nat) :
    (runCommits km (l.take n)).committedHeight ≤
      (runCommits km (l.take (n + 1))).committedHeight := by
  rw [runCommits, runCommits, List.take_succ, List.foldl_append]
  cases hx : l[n]? with
  | none => simp
  | some x =>
    simp only [Option.toList, List.foldl_cons, List.foldl_nil]
    exact commitHeight_le _ _

/-- C5: with `committedHeight = 10`, no pending heights and no commit of
height 11, committing height 12 leaves `committedHeight = 10` and records
12 as pending — the committed height never advances past a gap. -/
theorem claim_gap_holds :
    commitHeight { committedHeight := 10, pendingCommits := [] } 12 =
      { committedHeight := 10, pendingCommits := [12] } := by
  decide

end Checkpoint

namespace Pipeline

/-- C6: if the protocol handler's `shouldSend` check answers `false` for an
envelope's destination, `send` is never invoked for that envelope — the
dedup check gates delivery. -/
theorem claim_shouldSend_gates_send (hb : HandlerBehavior) (routeConfigured : Bool)
    (attestationAvailable : Bool) (height : Nat)
    (hfalse : hb.shouldSend = Except.ok false) :
    WorkerAction.sendMessage ∉
      processEnvelope (some hb) routeConfigured attestationAvailable height := by
  simp only [processEnvelope, hfalse]
  intro hmem
  rcases List.mem_cons.mp hmem with h | h
  · exact WorkerAction.noConfusion h
  rcases List.mem_cons.mp h with h2 | h2
  · exact WorkerAction.noConfusion h2
  by_cases hr : routeConfigured
  · simp [hr] at h2
  · simp [hr] at h2

/-- Witness for C6: a handler whose dedup check answers `false`. -/
theorem claim_shouldSend_gates_send_witness :
    ({ shouldSend := Except.ok false, sendOk := true } : HandlerBehavior).shouldSend =
      Except.ok false ∧
    WorkerAction.sendMessage ∉
      processEnvelope (some { shouldSend := Except.ok false, sendOk := true }) true true 42 :=
  ⟨rfl, claim_shouldSend_gates_send { shouldSend := Except.ok false, sendOk := true }
    true true 42 rfl⟩

end Pipeline

namespace DatabaseModel

theorem rotPacked_unpacks_to_rhoWalk :
    (List.range 25).map rotOffset = rhoWalkOffsets := by
  decide

theorem rcPacked_unpacks_to_lfsr :
    (List.range 24).map roundConstant = lfsrRoundConstants := by
  decide

set_option maxRecDepth 10000 in
theorem keccak256_standard_vectors :
    Keccak256 [] =
      [0xc5, 0xd2, 0x46, 0x01, 0x86, 0xf7, 0x23, 0x3c, 0x92, 0x7e, 0x7d, 0xb2,
       0xdc, 0xc7, 0x03, 0xc0, 0xe5, 0x00, 0xb6, 0x53, 0xca, 0x82, 0x27, 0x3b,
       0x7b, 0xfa, 0xd8, 0x04, 0x5d, 0x85, 0xa4, 0x70] ∧
    Keccak256 (strBytes "abc") =
      [0x4e, 0x03, 0x65, 0x7a, 0xea, 0x45, 0xa9, 0x4f, 0xc7, 0xd4, 0x7b, 0xa8,
       0x26, 0xc8, 0xd6, 0x67, 0xc0, 0xd1, 0xe6, 0xe3, 0x3a, 0x64, 0xa0, 0x36,
       0xec, 0x44, 0xf5, 0x8f, 0xa1, 0x2d, 0x6c, 0x45] :=
  ⟨by decide, by decide⟩

theorem errorsIs_iff_mem (target : GoError) : ∀ (e : GoError),
    errorsIs e target = true ↔ target ∈ unwrapChain e := by
  intro e
  induction e with
  | wrapped m inner ih =>
    rw [errorsIs, unwrapChain]
    simp only [Bool.or_eq_true, decide_eq_true_eq, List.mem_cons, ih]
    constructor
    · rintro (rfl | h)
      · exact Or.inl rfl
      · exact Or.inr h
    · rintro (rfl | h)
      · exact Or.inl rfl
      · exact Or.inr h
  | ErrDataKeyNotFound =>
    rw [errorsIs, unwrapChain]; simp [eq_comm]
    intro a b h; exact GoError.noConfusion h
  | ErrRelayerKeyNotFound =>
    rw [errorsIs, unwrapChain]; simp [eq_comm]
    intro a b h; exact GoError.noConfusion h
  | ErrDatabaseMisconfiguration =>
    rw [errorsIs, unwrapChain]; simp [eq_comm]
    intro a b h; exact GoError.noConfusion h
  | otherError msg =>
    rw [errorsIs, unwrapChain]; simp [eq_comm]
    intro a b h; exact GoError.noConfusion h

/-- C8: `IsKeyNotFoundError` answers `true` exactly when the error is, or
wraps, `ErrDataKeyNotFound` or `ErrRelayerKeyNotFound`, and `false` for
every other error — so an absent persisted key is distinguishable from any
other store failure. -/
theorem claim_is_key_not_found (err : GoError) :
    IsKeyNotFoundError err = true ↔
      (GoError.ErrDataKeyNotFound ∈ unwrapChain err ∨
       GoError.ErrRelayerKeyNotFound ∈ unwrapChain err) := by
  rw [IsKeyNotFoundError, Bool.or_eq_true, errorsIs_iff_mem, errorsIs_iff_mem]
  exact Or.comm

/-- C7: `CalculateRelayerKey` is a deterministic pure function — the same
4-tuple always yields the same identifier — and over the tested corpus
(a base tuple and four variants each differing in one field) all resulting
identifiers are pairwise distinct. -/
theorem claim_relayer_key_deterministic_distinct :
    (∀ s d o a : String,
      CalculateRelayerKey s d o a = CalculateRelayerKey s d o a) ∧
    (testCorpus.map fun t =>
      CalculateRelayerKey (t.getD 0 "") (t.getD 1 "") (t.getD 2 "") (t.getD 3 "")).Nodup :=
  ⟨fun _ _ _ _ => rfl, by set_option maxRecDepth 10000 in decide⟩

/-- C9: every relayer key produced from configuration carries the zero
address in both address fields, so configuration-derived keys are
distinguished only by the source and destination blockchain IDs. -/
theorem claim_config_keys_zero_addresses (cfg : Config) (k : RelayerKey)
    (hk : k ∈ GetConfigRelayerKeys cfg) :
    k.OriginSenderAddress = zeroAddress ∧ k.DestinationAddress = zeroAddress := by
  rw [GetConfigRelayerKeys, List.mem_flatMap] at hk
  obtain ⟨src, -, hmem⟩ := hk
  rw [GetSourceConfigRelayerKeys, List.mem_map] at hmem
  obtain ⟨dst, -, rfl⟩ := hmem
  exact ⟨rfl, rfl⟩

/-- Witness for C9 on a one-source, one-destination configuration. -/
theorem claim_config_keys_zero_addresses_witness :
    ({ SourceBlockchainID := 1, DestinationBlockchainID := 2,
       OriginSenderAddress := zeroAddress, DestinationAddress := zeroAddress } : RelayerKey) ∈
      GetConfigRelayerKeys { sourceBlockchains := [{ blockchainID := 1, supportedDestinations := [2] }] } ∧
    ({ SourceBlockchainID := 1, DestinationBlockchainID := 2,
       OriginSenderAddress := zeroAddress, DestinationAddress := zeroAddress } : RelayerKey).OriginSenderAddress = zeroAddress ∧
    ({ SourceBlockchainID := 1, DestinationBlockchainID := 2,
       OriginSenderAddress := zeroAddress, DestinationAddress := zeroAddress } : RelayerKey).DestinationAddress = zeroAddress :=
  ⟨by decide,
   claim_config_keys_zero_addresses
     { sourceBlockchains := [{ blockchainID := 1, supportedDestinations := [2] }] }
     { SourceBlockchainID := 1, DestinationBlockchainID := 2,
       OriginSenderAddress := zeroAddress, DestinationAddress := zeroAddress }
     (by decide)⟩

end DatabaseModel

namespace ContractMessage

theorem unpackPayload_ok {pac : List Nat → Except GoErr AddressedCall}
    {info : WarpMessageInfo} {u : UnsignedMessage} {ac : AddressedCall}
    (hac : pac u.Payload = Except.ok ac) :
    unpackPayload pac info u =
      ({ info with WarpUnsignedMessage := some u, WarpPayload := some ac.Payload }, none) := by
  simp only [unpackPayload, hac]

theorem unpackPayload_error {pac : List Nat → Except GoErr AddressedCall}
    {info : WarpMessageInfo} {u : UnsignedMessage} {e : GoErr}
    (hac : pac u.Payload = Except.error e) :
    unpackPayload pac info u = (info, some e) := by
  simp only [unpackPayload, hac]

theorem UnpackWarpMessage_ev_ok
    {unpackEvent parseStandalone : List Nat → Except GoErr UnsignedMessage}
    {parseAddressedCall : List Nat → Except GoErr AddressedCall}
    {info : WarpMessageInfo} {u : UnsignedMessage}
    (hev : unpackEvent info.UnsignedMsgBytes = Except.ok u) :
    UnpackWarpMessage unpackEvent parseStandalone parseAddressedCall info =
      unpackPayload parseAddressedCall info u := by
  simp only [UnpackWarpMessage, hev]

theorem UnpackWarpMessage_st_ok
    {unpackEvent parseStandalone : List Nat → Except GoErr UnsignedMessage}
    {parseAddressedCall : List Nat → Except GoErr AddressedCall}
    {info : WarpMessageInfo} {e1 : GoErr} {u : UnsignedMessage}
    (hev : unpackEvent info.UnsignedMsgBytes = Except.error e1)
    (hst : parseStandalone info.UnsignedMsgBytes = Except.ok u) :
    UnpackWarpMessage unpackEvent parseStandalone parseAddressedCall info =
      unpackPayload parseAddressedCall info u := by
  simp only [UnpackWarpMessage, hev, hst]

theorem UnpackWarpMessage_both_error
    {unpackEvent parseStandalone : List Nat → Except GoErr UnsignedMessage}
    {parseAddressedCall : List Nat → Except GoErr AddressedCall}
    {info : WarpMessageInfo} {e1 e2 : GoErr}
    (hev : unpackEvent info.UnsignedMsgBytes = Except.error e1)
    (hst : parseStandalone info.UnsignedMsgBytes = Except.error e2) :
    UnpackWarpMessage unpackEvent parseStandalone parseAddressedCall info =
      (info, some (GoErr.joined e1 e2)) := by
  simp only [UnpackWarpMessage, hev, hst]

theorem parsedUnsignedMessage_ev_ok
    {unpackEvent parseStandalone : List Nat → Except GoErr UnsignedMessage}
    {bytes : List Nat} {u : UnsignedMessage}
    (hev : unpackEvent bytes = Except.ok u) :
    parsedUnsignedMessage unpackEvent parseStandalone bytes = some u := by
  simp only [parsedUnsignedMessage, hev]

theorem parsedUnsignedMessage_st_ok
    {unpackEvent parseStandalone : List Nat → Except GoErr UnsignedMessage}
    {bytes : List Nat} {e1 : GoErr} {u : UnsignedMessage}
    (hev : unpackEvent bytes = Except.error e1)
    (hst : parseStandalone bytes = Except.ok u) :
    parsedUnsignedMessage unpackEvent parseStandalone bytes = some u := by
  simp only [parsedUnsignedMessage, hev, hst]

theorem parsedUnsignedMessage_none
    {unpackEvent parseStandalone : List Nat → Except GoErr UnsignedMessage}
    {bytes : List Nat} {e1 e2 : GoErr}
    (hev : unpackEvent bytes = Except.error e1)
    (hst : parseStandalone bytes = Except.error e2) :
    parsedUnsignedMessage unpackEvent parseStandalone bytes = none := by
  simp only [parsedUnsignedMessage, hev, hst]

/-- C10: `UnpackWarpMessage` returns nil exactly when the bytes parse as
log event data or, failing that, as a standalone unsigned message, and the
resulting payload parses as an addressed call; on success both
`WarpUnsignedMessage` and `WarpPayload` are assigned, and on every error
return the struct is left unchanged. -/
theorem claim_unpack_warp_message
    (unpackEvent parseStandalone : List Nat → Except GoErr UnsignedMessage)
    (parseAddressedCall : List Nat → Except GoErr AddressedCall)
    (info : WarpMessageInfo) :
    ((UnpackWarpMessage unpackEvent parseStandalone parseAddressedCall info).2 = none ↔
       ∃ u ac, parsedUnsignedMessage unpackEvent parseStandalone info.UnsignedMsgBytes = some u ∧
         parseAddressedCall u.Payload = Except.ok ac) ∧
    ((UnpackWarpMessage unpackEvent parseStandalone parseAddressedCall info).2 ≠ none →
       (UnpackWarpMessage unpackEvent parseStandalone parseAddressedCall info).1 = info) ∧
    (∀ u ac,
       parsedUnsignedMessage unpackEvent parseStandalone info.UnsignedMsgBytes = some u →
       parseAddressedCall u.Payload = Except.ok ac →
       (UnpackWarpMessage unpackEvent parseStandalone parseAddressedCall info).1 =
         { info with WarpUnsignedMessage := some u, WarpPayload := some ac.Payload }) := by
  cases hev : unpackEvent info.UnsignedMsgBytes with
  | ok u =>
    rw [UnpackWarpMessage_ev_ok hev, parsedUnsignedMessage_ev_ok hev]
    cases hac : parseAddressedCall u.Payload with
    | ok ac =>
      rw [unpackPayload_ok hac]
      refine ⟨⟨fun _ => ⟨u, ac, rfl, hac⟩, fun _ => rfl⟩, fun hne => absurd rfl hne, ?_⟩
      intro u2 ac2 hu2 hac2
      obtain rfl : u = u2 := by simpa using hu2
      rw [hac] at hac2
      obtain rfl : ac = ac2 := by simpa using hac2
      rfl
    | error e =>
      rw [unpackPayload_error hac]
      refine ⟨⟨fun h => absurd h (by simp), ?_⟩, fun _ => rfl, ?_⟩
      · rintro ⟨u2, ac2, hu2, hac2⟩
        obtain rfl : u = u2 := by simpa using hu2
        rw [hac] at hac2
        exact Except.noConfusion hac2
      · intro u2 ac2 hu2 hac2
        obtain rfl : u = u2 := by simpa using hu2
        rw [hac] at hac2
        exact Except.noConfusion hac2
  | error e1 =>
    cases hst : parseStandalone info.UnsignedMsgBytes with
    | ok u =>
      rw [UnpackWarpMessage_st_ok hev hst, parsedUnsignedMessage_st_ok hev hst]
      cases hac : parseAddressedCall u.Payload with
      | ok ac =>
        rw [unpackPayload_ok hac]
        refine ⟨⟨fun _ => ⟨u, ac, rfl, hac⟩, fun _ => rfl⟩, fun hne => absurd rfl hne, ?_⟩
        intro u2 ac2 hu2 hac2
        obtain rfl : u = u2 := by simpa using hu2
        rw [hac] at hac2
        obtain rfl : ac = ac2 := by simpa using hac2
        rfl
      | error e =>
        rw [unpackPayload_error hac]
        refine ⟨⟨fun h => absurd h (by simp), ?_⟩, fun _ => rfl, ?_⟩
        · rintro ⟨u2, ac2, hu2, hac2⟩
          obtain rfl : u = u2 := by simpa using hu2
          rw [hac] at hac2
          exact Except.noConfusion hac2
        · intro u2 ac2 hu2 hac2
          obtain rfl : u = u2 := by simpa using hu2
          rw [hac] at hac2
          exact Except.noConfusion hac2
    | error e2 =>
      rw [UnpackWarpMessage_both_error hev hst, parsedUnsignedMessage_none hev hst]
      refine ⟨⟨fun h => absurd h (by simp), ?_⟩, fun _ => rfl, ?_⟩
      · rintro ⟨u2, ac2, hu2, -⟩
        exact Option.noConfusion hu2
      · intro u2 ac2 hu2 hac2
        exact Option.noConfusion hu2

/-- Witness for C10: concrete parsers where unpacking succeeds on one
input (assigning both fields) and fails on another (leaving the struct
unchanged). -/
theorem claim_unpack_warp_message_witness :
    (UnpackWarpMessage
        (fun b => if b = [1] then Except.ok { Payload := [2] } else Except.error (GoErr.simple "ev"))
        (fun _ => Except.error (GoErr.simple "st"))
        (fun b => if b = [2] then Except.ok { Payload := [3] } else Except.error (GoErr.simple "ac"))
        { UnsignedMsgBytes := [1], WarpUnsignedMessage := none, WarpPayload := none }).1 =
      { UnsignedMsgBytes := [1], WarpUnsignedMessage := some { Payload := [2] },
        WarpPayload := some [3] } ∧
    (UnpackWarpMessage
        (fun b => if b = [1] then Except.ok { Payload := [2] } else Except.error (GoErr.simple "ev"))
        (fun _ => Except.error (GoErr.simple "st"))
        (fun b => if b = [2] then Except.ok { Payload := [3] } else Except.error (GoErr.simple "ac"))
        { UnsignedMsgBytes := [9], WarpUnsignedMessage := none, WarpPayload := none }).1 =
      { UnsignedMsgBytes := [9], WarpUnsignedMessage := none, WarpPayload := none } :=
  ⟨(claim_unpack_warp_message
      (fun b => if b = [1] then Except.ok { Payload := [2] } else Except.error (GoErr.simple "ev"))
      (fun _ => Except.error (GoErr.simple "st"))
      (fun b => if b = [2] then Except.ok { Payload := [3] } else Except.error (GoErr.simple "ac"))
      { UnsignedMsgBytes := [1], WarpUnsignedMessage := none, WarpPayload := none }).2.2
    { Payload := [2] } { Payload := [3] } rfl rfl,
   (claim_unpack_warp_message
      (fun b => if b = [1] then Except.ok { Payload := [2] } else Except.error (GoErr.simple "ev"))
      (fun _ => Except.error (GoErr.simple "st"))
      (fun b => if b = [2] then Except.ok { Payload := [3] } else Except.error (GoErr.simple "ac"))
      { UnsignedMsgBytes := [9], WarpUnsignedMessage := none, WarpPayload := none }).2.1
    (by decide)⟩

end ContractMessage
